import Mathlib

/-!
Shallow embedding of the turf-booking application (`turf_chatot.py`).

The persistent store is modelled as three lists of rows (users, slots,
bookings) together with the autoincrement counters of the three primary
keys.  Dates are abstracted to `Nat` (the code only ever compares dates
for equality); times are abstracted to the starting hour (the code only
ever builds `time(hour, 0)` values).

Each service function of the source becomes a pure function on `DB`,
returning the same observable results (booleans, row lists) next to the
updated store.
-/

namespace Turf

/-- A row of the `users` table. -/
structure User where
  user_id : Nat
  name : String
  email : String
  phone : String
  password : String
  role : String
  deriving Repr, DecidableEq

/-- A row of the `slots` table.  `start_hour`/`end_hour` stand for the
`Time` columns `time(hour, 0)`. -/
structure Slot where
  slot_id : Nat
  start_hour : Nat
  end_hour : Nat
  date : Nat
  availability : Bool
  deriving Repr, DecidableEq

/-- A row of the `bookings` table. -/
structure Booking where
  booking_id : Nat
  user_id : Nat
  slot_id : Nat
  confirmation_status : Bool
  deriving Repr, DecidableEq

/-- The whole persistent state: the three tables plus the autoincrement
counters for their primary keys. -/
structure DB where
  users : List User
  slots : List Slot
  bookings : List Booking
  nextUserId : Nat
  nextSlotId : Nat
  nextBookingId : Nat
  deriving Repr, DecidableEq

/-- The freshly created database (`Base.metadata.create_all`): empty
tables, autoincrement counters at 1 (SQLite rowids start at 1). -/
def initDB : DB := ⟨[], [], [], 1, 1, 1⟩

/-- `register_user`: inserts a new user row with the hashed password;
the UNIQUE constraint on `email` raises `IntegrityError` when the email
already exists, which the code turns into `False` after a rollback.
`hash` abstracts `bcrypt.hashpw` with a fixed salt draw. -/
def register_user (hash : String → String) (name email phone password role : String)
    (db : DB) : Bool × DB :=
  if ∃ u ∈ db.users, u.email = email then
    (false, db)
  else
    (true, { db with
      users := db.users ++
        [⟨db.nextUserId, name, email, phone, hash password, role⟩],
      nextUserId := db.nextUserId + 1 })

/-- `authenticate_user`: looks the user up by email and verifies the
password against the stored hash.  `checkPw` abstracts
`bcrypt.checkpw`. -/
def authenticate_user (checkPw : String → String → Bool) (email password : String)
    (db : DB) : Option User :=
  match db.users.find? (fun u => u.email == email) with
  | some u => if checkPw password u.password then some u else none
  | none => none

/-- The 24 slot rows inserted by `generate_slots_for_date` for date `d`
when the ids start at `base`: one per hour 0–23, ending at
`(hour + 1) % 24`, all available (`availability` defaults to `True`). -/
def genSlots (d base : Nat) : List Slot :=
  (List.range 24).map fun hour => ⟨base + hour, hour, (hour + 1) % 24, d, true⟩

/-- `generate_slots_for_date`: if no slot exists for the date, inserts
the 24 hourly rows; otherwise does nothing. -/
def generate_slots_for_date (d : Nat) (db : DB) : DB :=
  if ∃ s ∈ db.slots, s.date = d then db
  else { db with
    slots := db.slots ++ genSlots d db.nextSlotId,
    nextSlotId := db.nextSlotId + 24 }

/-- `get_available_slots`: ensures the day is generated, then returns
every slot row of that date (available or not), in insertion order. -/
def get_available_slots (d : Nat) (db : DB) : List Slot × DB :=
  let db1 := generate_slots_for_date d db
  (db1.slots.filter (fun s => s.date == d), db1)

/-- `session.query(Slot).filter(slot_id == sid, availability == True).first()`
followed by `slot.availability = False`: finds the first available row
with this id and flips it; `none` when there is no such row.  Returns
the flipped row (the object the code appends to `successful_bookings`)
and the updated table. -/
def bookFirstAvail (sid : Nat) : List Slot → Option (Slot × List Slot)
  | [] => none
  | s :: rest =>
    if s.slot_id = sid ∧ s.availability = true then
      some ({ s with availability := false }, { s with availability := false } :: rest)
    else
      match bookFirstAvail sid rest with
      | some (b, rest1) => some (b, s :: rest1)
      | none => none

/-- The loop body of `book_slot` over the requested slot ids: each id is
re-checked for availability at the moment it is processed; a still
available slot is flipped and one booking row is added; an unavailable
or unknown id is skipped.  Returns the successfully booked slots. -/
def book_go (uid : Nat) : List Nat → DB → List Slot × DB
  | [], db => ([], db)
  | sid :: rest, db =>
    match bookFirstAvail sid db.slots with
    | some (s, slots1) =>
      let db1 : DB := { db with
        slots := slots1,
        bookings := db.bookings ++ [⟨db.nextBookingId, uid, sid, true⟩],
        nextBookingId := db.nextBookingId + 1 }
      let r := book_go uid rest db1
      (s :: r.1, r.2)
    | none => book_go uid rest db

/-- `book_slot`: processes the requested ids, commits, then sends one
notification per successful slot (modelled as the pair of the booking
user id and the slot id) and returns the successfully booked slots. -/
def book_slot (uid : Nat) (slot_ids : List Nat) (db : DB) :
    List Slot × List (Nat × Nat) × DB :=
  let r := book_go uid slot_ids db
  (r.1, r.1.map (fun s => (uid, s.slot_id)), r.2)

/-- `cancel_booking`: looks the booking up by id; if found, resets its
slot's availability to `True`, deletes the booking row and returns
`True`; otherwise returns `False`. -/
def cancel_booking (bid : Nat) (db : DB) : Bool × DB :=
  match db.bookings.find? (fun b => b.booking_id == bid) with
  | some b =>
    (true, { db with
      slots := db.slots.map fun s =>
        if s.slot_id = b.slot_id then { s with availability := true } else s,
      bookings := db.bookings.eraseP (fun b2 => b2.booking_id == bid) })
  | none => (false, db)

/-- The owner "Create Slot" action: inserts one slot for the chosen
date and start hour unless a slot at that exact date and start hour
already exists. -/
def create_slot (d start_hour : Nat) (db : DB) : DB :=
  if ∃ s ∈ db.slots, s.date = d ∧ s.start_hour = start_hour then db
  else { db with
    slots := db.slots ++ [⟨db.nextSlotId, start_hour, (start_hour + 1) % 24, d, true⟩],
    nextSlotId := db.nextSlotId + 1 }

/-- The owner "Block Slot" action: `selected_slot.availability = False`,
unconditionally, on the slot row with the selected id. -/
def block_slot (sid : Nat) (db : DB) : DB :=
  { db with
    slots := db.slots.map fun s =>
      if s.slot_id = sid then { s with availability := false } else s }

/-- The state-changing operations of the application. -/
inductive Op where
  | register (name email phone password role : String)
  | generate (d : Nat)
  | book (uid : Nat) (slot_ids : List Nat)
  | cancel (bid : Nat)
  | createSlot (d start_hour : Nat)
  | block (sid : Nat)
  deriving Repr

/-- The state transformation of one operation (return values projected
away). -/
def applyOp (hash : String → String) : Op → DB → DB
  | .register n e p pw r, db => (register_user hash n e p pw r db).2
  | .generate d, db => generate_slots_for_date d db
  | .book uid ids, db => (book_slot uid ids db).2.2
  | .cancel bid, db => (cancel_booking bid db).2
  | .createSlot d h, db => create_slot d h db
  | .block sid, db => block_slot sid db

/-- Folding a sequence of operations over a state. -/
def applyOps (hash : String → String) (ops : List Op) (db : DB) : DB :=
  ops.foldl (fun acc op => applyOp hash op acc) db

/-- The states reachable from the fresh database by the application's
operations. -/
inductive Reachable (hash : String → String) : DB → Prop
  | init : Reachable hash initDB
  | step (op : Op) {db : DB} : Reachable hash db → Reachable hash (applyOp hash op db)

/-- Number of booking rows referencing the slot id `sid`. -/
def countRefs (db : DB) (sid : Nat) : Nat :=
  (db.bookings.filter (fun b => b.slot_id == sid)).length

/-- The spec's slot-state relation, read literally: a slot's
availability is false if and only if exactly zero or one active booking
references it. -/
def availIffAtMostOneRef (db : DB) : Prop :=
  ∀ s ∈ db.slots, (s.availability = false ↔ countRefs db s.slot_id ≤ 1)

/-- Slot `sid` is in the Blocked state: it exists, every row carrying
this id is unavailable, and no booking references it. -/
def Blocked (db : DB) (sid : Nat) : Prop :=
  (∃ s ∈ db.slots, s.slot_id = sid) ∧
  (∀ s ∈ db.slots, s.slot_id = sid → s.availability = false) ∧
  (∀ b ∈ db.bookings, b.slot_id ≠ sid)

/-- Well-formedness maintained by the application: slot ids are below
the autoincrement counter and pairwise distinct (primary key), booking
rows reference pairwise distinct slot ids below the counter, and every
slot referenced by a booking is unavailable. -/
def Inv (db : DB) : Prop :=
  (∀ s ∈ db.slots, s.slot_id < db.nextSlotId) ∧
  (db.slots.map Slot.slot_id).Nodup ∧
  (db.bookings.map Booking.slot_id).Nodup ∧
  (∀ b ∈ db.bookings, ∀ s ∈ db.slots, s.slot_id = b.slot_id → s.availability = false) ∧
  (∀ b ∈ db.bookings, b.slot_id < db.nextSlotId)

/-- A small concrete state with one booked slot and its booking,
used to evaluate the cancellation path. -/
def dbCancel : DB :=
  ⟨[], [⟨1, 10, 11, 0, false⟩], [⟨1, 1, 1, true⟩], 1, 2, 2⟩

/-- A small concrete state with one registered user, used to evaluate
registration and authentication. -/
def dbUsers : DB :=
  ⟨[⟨1, "alice", "alice@example.com", "123", "secret", "user"⟩], [], [], 2, 1, 1⟩

/-- A small concrete state where booking 1 references slot 2,
used to evaluate blocking a booked slot. -/
def dbBlock : DB :=
  ⟨[], [⟨2, 10, 11, 0, false⟩], [⟨1, 1, 2, true⟩], 1, 3, 2⟩

/-- A small concrete state with one available and one unavailable slot,
used to evaluate the booking path. -/
def dbBook : DB := ⟨[], [⟨1, 10, 11, 0, true⟩, ⟨2, 11, 12, 0, false⟩], [], 1, 3, 1⟩

end Turf

namespace Turf

theorem genSlots_dates (d base : Nat) : ∀ s ∈ genSlots d base, s.date = d := by
  intro s hs
  simp only [genSlots, List.mem_map, List.mem_range] at hs
  obtain ⟨h, _, rfl⟩ := hs
  rfl

/-- C3: for every date `d` with no previously existing slots,
`generate_slots_for_date` followed by listing the day's slots returns
exactly 24 slots in slot_id (insertion) order, one per start hour 0–23,
all available, the slot starting at hour `h` ending at `(h + 1) % 24`
on the same date value. -/
theorem C3_fresh_day_generates_24_slots (d : Nat) (db : DB)
    (hd : ∀ s ∈ db.slots, s.date ≠ d) :
    (get_available_slots d db).1 =
      (List.range 24).map (fun hour =>
        ({ slot_id := db.nextSlotId + hour, start_hour := hour,
           end_hour := (hour + 1) % 24, date := d, availability := true } : Slot)) ∧
    (get_available_slots d db).1.length = 24 := by
  have hne : ¬ ∃ s ∈ db.slots, s.date = d := by
    rintro ⟨s, hs, rfl⟩
    exact hd s hs rfl
  have hfilter : db.slots.filter (fun s => s.date == d) = [] := by
    rw [List.filter_eq_nil_iff]
    intro s hs
    simpa using hd s hs
  have hgen : (genSlots d db.nextSlotId).filter (fun s => s.date == d) =
      genSlots d db.nextSlotId := by
    rw [List.filter_eq_self]
    intro s hs
    simpa using genSlots_dates d db.nextSlotId s hs
  constructor
  · simp only [get_available_slots, generate_slots_for_date, if_neg hne,
      List.filter_append, hfilter, hgen, List.nil_append]
    rfl
  · simp only [get_available_slots, generate_slots_for_date, if_neg hne,
      List.filter_append, hfilter, hgen, List.nil_append]
    simp [genSlots]

/-- Witness for C3 at the fresh database and date 0. -/
theorem C3_fresh_day_generates_24_slots_witness :
    (get_available_slots 0 initDB).1 =
      (List.range 24).map (fun hour =>
        ({ slot_id := initDB.nextSlotId + hour, start_hour := hour,
           end_hour := (hour + 1) % 24, date := 0, availability := true } : Slot)) ∧
    (get_available_slots 0 initDB).1.length = 24 :=
  C3_fresh_day_generates_24_slots 0 initDB (by intro s hs; simp [initDB] at hs)

/-- C4: slot generation is idempotent — a second call changes nothing
(the generated slots make the date non-empty), and when any slot
already exists for the date the call changes nothing at all. -/
theorem C4_generate_idempotent (d : Nat) (db : DB) :
    generate_slots_for_date d (generate_slots_for_date d db) =
      generate_slots_for_date d db ∧
    ((∃ s ∈ db.slots, s.date = d) → generate_slots_for_date d db = db) := by
  constructor
  · by_cases h : ∃ s ∈ db.slots, s.date = d
    · have hid : generate_slots_for_date d db = db := by
        rw [generate_slots_for_date, if_pos h]
      rw [hid, hid]
    · have h2 : ∃ s ∈ (generate_slots_for_date d db).slots, s.date = d := by
        refine ⟨⟨db.nextSlotId, 0, 1, d, true⟩, ?_, rfl⟩
        simp only [generate_slots_for_date, if_neg h, List.mem_append]
        right
        simp [genSlots]
        exact ⟨0, by norm_num, by simp⟩
      conv_lhs => rw [generate_slots_for_date, if_pos h2]
  · intro h
    rw [generate_slots_for_date, if_pos h]

/-- Witness for C4 at a database that already has a slot for date 7. -/
theorem C4_generate_idempotent_witness :
    generate_slots_for_date 7 (generate_slots_for_date 7 (generate_slots_for_date 7 initDB)) =
      generate_slots_for_date 7 (generate_slots_for_date 7 initDB) ∧
    generate_slots_for_date 7 (generate_slots_for_date 7 initDB) =
      generate_slots_for_date 7 initDB := by
  have h := C4_generate_idempotent 7 (generate_slots_for_date 7 initDB)
  exact ⟨h.1, h.2 (by decide)⟩

end Turf

namespace Turf

/-- C2: cancelling an existing booking id returns true, resets the
referenced slot's availability to true and deletes the booking row;
cancelling a nonexistent booking id returns false and changes no
state. -/
theorem C2_cancel_booking_spec (bid : Nat) (db : DB) :
    ((¬ ∃ b ∈ db.bookings, b.booking_id = bid) → cancel_booking bid db = (false, db)) ∧
    ((∃ b ∈ db.bookings, b.booking_id = bid) →
      ∃ b ∈ db.bookings, b.booking_id = bid ∧
        cancel_booking bid db =
          (true, { db with
            slots := db.slots.map fun s =>
              if s.slot_id = b.slot_id then { s with availability := true } else s,
            bookings := db.bookings.eraseP (fun b2 => b2.booking_id == bid) }) ∧
        (∀ s ∈ (cancel_booking bid db).2.slots,
          s.slot_id = b.slot_id → s.availability = true) ∧
        (cancel_booking bid db).2.bookings.length + 1 = db.bookings.length) := by
  constructor
  · intro h
    have hnone : db.bookings.find? (fun b => b.booking_id == bid) = none := by
      rw [List.find?_eq_none]
      intro b hb
      simp only [beq_iff_eq]
      intro he
      exact h ⟨b, hb, he⟩
    rw [cancel_booking, hnone]
  · intro h
    have hsome : (db.bookings.find? (fun b => b.booking_id == bid)).isSome := by
      rw [List.find?_isSome]
      obtain ⟨b, hb, he⟩ := h
      exact ⟨b, hb, by simpa using he⟩
    obtain ⟨b, hfind⟩ := Option.isSome_iff_exists.mp hsome
    have hmem : b ∈ db.bookings := List.mem_of_find?_eq_some hfind
    have hbid : b.booking_id = bid := by simpa using List.find?_some hfind
    refine ⟨b, hmem, hbid, ?_, ?_, ?_⟩
    · rw [cancel_booking, hfind]
    · intro s hs hsid
      rw [cancel_booking, hfind] at hs
      simp only [List.mem_map] at hs
      obtain ⟨t, ht, rfl⟩ := hs
      by_cases hc : t.slot_id = b.slot_id
      · simp [hc]
      · simp only [if_neg hc] at hsid ⊢
        exact absurd hsid hc
    · rw [cancel_booking, hfind]
      simp only
      rw [List.length_eraseP_of_mem hmem (by simpa using hbid)]
      have hpos : 0 < db.bookings.length := List.length_pos_of_mem hmem
      omega

/-- Witness for C2: cancelling the absent booking 5 changes nothing;
cancelling the present booking 1 succeeds, frees its slot and removes
the row. -/
theorem C2_cancel_booking_spec_witness :
    cancel_booking 5 dbCancel = (false, dbCancel) ∧
    (∃ b ∈ dbCancel.bookings, b.booking_id = 1 ∧
      cancel_booking 1 dbCancel =
        (true, { dbCancel with
          slots := dbCancel.slots.map fun s =>
            if s.slot_id = b.slot_id then { s with availability := true } else s,
          bookings := dbCancel.bookings.eraseP (fun b2 => b2.booking_id == 1) }) ∧
      (∀ s ∈ (cancel_booking 1 dbCancel).2.slots,
        s.slot_id = b.slot_id → s.availability = true) ∧
      (cancel_booking 1 dbCancel).2.bookings.length + 1 = dbCancel.bookings.length) :=
  ⟨(C2_cancel_booking_spec 5 dbCancel).1 (by decide),
   (C2_cancel_booking_spec 1 dbCancel).2 ⟨⟨1, 1, 1, true⟩, by decide, by decide⟩⟩

/-- C6: registering with an email already present fails with a boolean
false and leaves the whole state (in particular the users table)
unchanged; with a fresh email no further validation happens in the
service and the call returns true. -/
theorem C6_register_duplicate_email (hash : String → String)
    (name email phone password role : String) (db : DB) :
    ((∃ u ∈ db.users, u.email = email) →
      register_user hash name email phone password role db = (false, db)) ∧
    ((¬ ∃ u ∈ db.users, u.email = email) →
      (register_user hash name email phone password role db).1 = true) := by
  constructor
  · intro h
    rw [register_user, if_pos h]
  · intro h
    rw [register_user, if_neg h]

/-- Witness for C6: re-registering alice's email fails and keeps the
state; a fresh email is accepted whatever the other fields are. -/
theorem C6_register_duplicate_email_witness :
    register_user id "bob" "alice@example.com" "" "x" "owner" dbUsers = (false, dbUsers) ∧
    (register_user id "" "bob@example.com" "" "" "" dbUsers).1 = true :=
  ⟨(C6_register_duplicate_email id "bob" "alice@example.com" "" "x" "owner" dbUsers).1
      ⟨⟨1, "alice", "alice@example.com", "123", "secret", "user"⟩, by decide, by decide⟩,
   (C6_register_duplicate_email id "" "bob@example.com" "" "" "" dbUsers).2
      (by decide)⟩

/-- C7: authentication returns the user record exactly when the email
lookup succeeds and the password verifies against the stored hash; an
unknown email and a wrong password for a known email both return the
same `none`. -/
theorem C7_authenticate_spec (checkPw : String → String → Bool)
    (email password : String) (db : DB) :
    (∀ u, authenticate_user checkPw email password db = some u ↔
      db.users.find? (fun x => x.email == email) = some u ∧
        checkPw password u.password = true) ∧
    (db.users.find? (fun x => x.email == email) = none →
      authenticate_user checkPw email password db = none) ∧
    (∀ u, db.users.find? (fun x => x.email == email) = some u →
      checkPw password u.password = false →
      authenticate_user checkPw email password db = none) := by
  refine ⟨?_, ?_, ?_⟩
  · intro u
    rw [authenticate_user]
    cases hf : db.users.find? (fun x => x.email == email) with
    | none => simp
    | some v =>
      by_cases hc : checkPw password v.password = true
      · simp only [hc, if_true]
        constructor
        · rintro h
          injection h with h
          subst h
          exact ⟨rfl, hc⟩
        · rintro ⟨h1, _⟩
          injection h1 with h1
          subst h1
          rfl
      · simp only [if_neg hc]
        constructor
        · intro h
          exact absurd h (by simp)
        · rintro ⟨h1, h2⟩
          injection h1 with h1
          subst h1
          exact absurd h2 hc
  · intro h
    rw [authenticate_user, h]
  · intro u h hc
    rw [authenticate_user, h]
    simp [hc]

/-- Witness for C7 with password check modelled by string equality:
the right password returns alice's record, a wrong password and an
unknown email both return `none`. -/
theorem C7_authenticate_spec_witness :
    authenticate_user (fun p h => p == h) "alice@example.com" "secret" dbUsers =
      some ⟨1, "alice", "alice@example.com", "123", "secret", "user"⟩ ∧
    authenticate_user (fun p h => p == h) "nobody@example.com" "secret" dbUsers = none ∧
    authenticate_user (fun p h => p == h) "alice@example.com" "wrong" dbUsers = none :=
  ⟨((C7_authenticate_spec (fun p h => p == h) "alice@example.com" "secret" dbUsers).1
      ⟨1, "alice", "alice@example.com", "123", "secret", "user"⟩).mpr ⟨by decide, by decide⟩,
   (C7_authenticate_spec (fun p h => p == h) "nobody@example.com" "secret" dbUsers).2.1
      (by decide),
   (C7_authenticate_spec (fun p h => p == h) "alice@example.com" "wrong" dbUsers).2.2
      ⟨1, "alice", "alice@example.com", "123", "secret", "user"⟩ (by decide) (by decide)⟩

/-- C10: the owner block action sets a slot's availability to false
unconditionally, even when an active booking references it; cancelling
that booking afterwards succeeds and sets the slot's availability back
to true, so the block does not persist past the cancellation. -/
theorem C10_block_then_cancel (bid sid : Nat) (db : DB) (b : Booking)
    (hfind : db.bookings.find? (fun b2 => b2.booking_id == bid) = some b)
    (hsid : b.slot_id = sid) :
    (∀ s ∈ (block_slot sid db).slots, s.slot_id = sid → s.availability = false) ∧
    (block_slot sid db).bookings = db.bookings ∧
    (cancel_booking bid (block_slot sid db)).1 = true ∧
    (∀ s ∈ (cancel_booking bid (block_slot sid db)).2.slots,
      s.slot_id = sid → s.availability = true) := by
  have hbk : (block_slot sid db).bookings = db.bookings := rfl
  have hfind2 : (block_slot sid db).bookings.find? (fun b2 => b2.booking_id == bid) =
      some b := by rw [hbk, hfind]
  refine ⟨?_, hbk, ?_, ?_⟩
  · intro s hs hid
    simp only [block_slot, List.mem_map] at hs
    obtain ⟨t, ht, rfl⟩ := hs
    by_cases hc : t.slot_id = sid
    · simp [hc]
    · simp only [if_neg hc] at hid
      exact absurd hid hc
  · rw [cancel_booking, hfind2]
  · intro s hs hid
    rw [cancel_booking, hfind2] at hs
    simp only [List.mem_map] at hs
    obtain ⟨t, ht, rfl⟩ := hs
    by_cases hc : t.slot_id = b.slot_id
    · simp [hc]
    · simp only [if_neg hc] at hid ⊢
      rw [hsid] at hc
      exact absurd hid hc

/-- Witness for C10: blocking the booked slot 2 and then cancelling
booking 1 leaves slot 2 available again. -/
theorem C10_block_then_cancel_witness :
    (∀ s ∈ (block_slot 2 dbBlock).slots, s.slot_id = 2 → s.availability = false) ∧
    (block_slot 2 dbBlock).bookings = dbBlock.bookings ∧
    (cancel_booking 1 (block_slot 2 dbBlock)).1 = true ∧
    (∀ s ∈ (cancel_booking 1 (block_slot 2 dbBlock)).2.slots,
      s.slot_id = 2 → s.availability = true) :=
  C10_block_then_cancel 1 2 dbBlock ⟨1, 1, 2, true⟩ (by decide) (by decide)

end Turf

namespace Turf

theorem bookFirstAvail_none_iff (sid : Nat) (l : List Slot) :
    bookFirstAvail sid l = none ↔ ∀ s ∈ l, s.slot_id = sid → s.availability = false := by
  induction l with
  | nil => simp [bookFirstAvail]
  | cons a rest ih =>
    by_cases hc : a.slot_id = sid ∧ a.availability = true
    · simp only [bookFirstAvail, if_pos hc]
      constructor
      · intro h
        exact absurd h (by simp)
      · intro h
        have := h a (List.mem_cons_self a rest) hc.1
        rw [hc.2] at this
        exact absurd this (by simp)
    · simp only [bookFirstAvail, if_neg hc]
      cases hr : bookFirstAvail sid rest with
      | some p =>
        simp only
        constructor
        · intro h
          exact absurd h (by simp)
        · intro h
          have : bookFirstAvail sid rest = none := by
            rw [ih]
            intro s hs
            exact h s (List.mem_cons_of_mem a hs)
          rw [hr] at this
          exact absurd this (by simp)
      | none =>
        simp only
        constructor
        · intro _ s hs hid
          rcases List.mem_cons.mp hs with rfl | hs2
          · by_cases hav : s.availability = true
            · exact absurd ⟨hid, hav⟩ hc
            · simpa using hav
          · exact (ih.mp hr) s hs2 hid
        · intro _
          trivial

theorem bookFirstAvail_some_spec (sid : Nat) (l : List Slot) (s : Slot) (l' : List Slot)
    (h : bookFirstAvail sid l = some (s, l')) :
    s.slot_id = sid ∧ s.availability = false ∧
    l'.map Slot.slot_id = l.map Slot.slot_id ∧
    (∀ t ∈ l', t.availability = true → t ∈ l) ∧
    (∀ t ∈ l, t.slot_id ≠ sid → t ∈ l') ∧
    (∃ t ∈ l, t.availability = true ∧ s = { t with availability := false }) := by
  induction l generalizing l' with
  | nil => simp [bookFirstAvail] at h
  | cons a rest ih =>
    by_cases hc : a.slot_id = sid ∧ a.availability = true
    · simp only [bookFirstAvail, if_pos hc, Option.some_inj, Prod.mk.injEq] at h
      obtain ⟨rfl, rfl⟩ := h
      refine ⟨hc.1, rfl, by simp, ?_, ?_, ?_⟩
      · intro t ht hav
        rcases List.mem_cons.mp ht with rfl | ht2
        · simp at hav
        · exact List.mem_cons_of_mem a ht2
      · intro t ht hne
        rcases List.mem_cons.mp ht with rfl | ht2
        · exact absurd hc.1 hne
        · exact List.mem_cons_of_mem _ ht2
      · exact ⟨a, List.mem_cons_self a rest, hc.2, rfl⟩
    · simp only [bookFirstAvail, if_neg hc] at h
      cases hr : bookFirstAvail sid rest with
      | some p =>
        obtain ⟨b, rest1⟩ := p
        rw [hr] at h
        simp only [Option.some_inj, Prod.mk.injEq] at h
        obtain ⟨rfl, rfl⟩ := h
        obtain ⟨h1, h2, h3, h4, h5, h6⟩ := ih rest1 hr
        refine ⟨h1, h2, by simpa using h3, ?_, ?_, ?_⟩
        · intro t ht hav
          rcases List.mem_cons.mp ht with rfl | ht2
          · exact List.mem_cons_self t rest
          · exact List.mem_cons_of_mem a (h4 t ht2 hav)
        · intro t ht hne
          rcases List.mem_cons.mp ht with rfl | ht2
          · exact List.mem_cons_self t rest1
          · exact List.mem_cons_of_mem a (h5 t ht2 hne)
        · obtain ⟨t, ht, hav, rfl⟩ := h6
          exact ⟨t, List.mem_cons_of_mem a ht, hav, rfl⟩
      | none =>
        rw [hr] at h
        simp at h

theorem bookFirstAvail_some_unavail (sid : Nat) (l : List Slot) (s : Slot) (l' : List Slot)
    (hN : (l.map Slot.slot_id).Nodup)
    (h : bookFirstAvail sid l = some (s, l')) :
    ∀ t ∈ l', t.slot_id = sid → t.availability = false := by
  induction l generalizing l' with
  | nil => simp [bookFirstAvail] at h
  | cons a rest ih =>
    simp only [List.map_cons, List.nodup_cons] at hN
    by_cases hc : a.slot_id = sid ∧ a.availability = true
    · simp only [bookFirstAvail, if_pos hc, Option.some_inj, Prod.mk.injEq] at h
      obtain ⟨rfl, rfl⟩ := h
      intro t ht hid
      rcases List.mem_cons.mp ht with rfl | ht2
      · rfl
      · exfalso
        apply hN.1
        rw [hc.1, ← hid]
        exact List.mem_map_of_mem Slot.slot_id ht2
    · simp only [bookFirstAvail, if_neg hc] at h
      cases hr : bookFirstAvail sid rest with
      | some p =>
        obtain ⟨b, rest1⟩ := p
        rw [hr] at h
        simp only [Option.some_inj, Prod.mk.injEq] at h
        obtain ⟨rfl, rfl⟩ := h
        intro t ht hid
        rcases List.mem_cons.mp ht with rfl | ht2
        · by_cases hav : t.availability = true
          · exact absurd ⟨hid, hav⟩ hc
          · simpa using hav
        · exact ih rest1 hN.2 hr t ht2 hid
      | none =>
        rw [hr] at h
        simp at h

end Turf

namespace Turf

theorem book_go_frame (uid : Nat) (ids : List Nat) (db : DB) :
    (book_go uid ids db).2.users = db.users ∧
    (book_go uid ids db).2.nextUserId = db.nextUserId ∧
    (book_go uid ids db).2.nextSlotId = db.nextSlotId := by
  induction ids generalizing db with
  | nil => exact ⟨rfl, rfl, rfl⟩
  | cons sid rest ih =>
    simp only [book_go]
    cases hr : bookFirstAvail sid db.slots with
    | some p =>
      obtain ⟨s, slots1⟩ := p
      simp only
      exact ih _
    | none =>
      simp only
      exact ih db

theorem book_go_slot_ids (uid : Nat) (ids : List Nat) (db : DB) :
    (book_go uid ids db).2.slots.map Slot.slot_id = db.slots.map Slot.slot_id := by
  induction ids generalizing db with
  | nil => rfl
  | cons sid rest ih =>
    simp only [book_go]
    cases hr : bookFirstAvail sid db.slots with
    | some p =>
      obtain ⟨s, slots1⟩ := p
      simp only
      rw [ih]
      exact (bookFirstAvail_some_spec sid db.slots s slots1 hr).2.2.1
    | none =>
      simp only
      exact ih db

theorem book_go_avail_mem (uid : Nat) (ids : List Nat) (db : DB) :
    ∀ t ∈ (book_go uid ids db).2.slots, t.availability = true → t ∈ db.slots := by
  induction ids generalizing db with
  | nil => exact fun t ht _ => ht
  | cons sid rest ih =>
    simp only [book_go]
    cases hr : bookFirstAvail sid db.slots with
    | some p =>
      obtain ⟨s, slots1⟩ := p
      simp only
      intro t ht hav
      exact (bookFirstAvail_some_spec sid db.slots s slots1 hr).2.2.2.1 t (ih _ t ht hav) hav
    | none =>
      simp only
      exact ih db

theorem book_go_bookings (uid : Nat) (ids : List Nat) (db : DB) :
    ∃ nb, (book_go uid ids db).2.bookings = db.bookings ++ nb ∧
      nb.map Booking.slot_id = (book_go uid ids db).1.map Slot.slot_id ∧
      (∀ b ∈ nb, b.user_id = uid ∧ b.confirmation_status = true) := by
  induction ids generalizing db with
  | nil => exact ⟨[], by simp [book_go], rfl, by simp⟩
  | cons sid rest ih =>
    cases hr : bookFirstAvail sid db.slots with
    | some p =>
      obtain ⟨s, slots1⟩ := p
      obtain ⟨hid, _, _, _, _, _⟩ := bookFirstAvail_some_spec sid db.slots s slots1 hr
      simp only [book_go, hr]
      obtain ⟨nb, h1, h2, h3⟩ := ih ({ db with
        slots := slots1,
        bookings := db.bookings ++ [⟨db.nextBookingId, uid, sid, true⟩],
        nextBookingId := db.nextBookingId + 1 } : DB)
      refine ⟨⟨db.nextBookingId, uid, sid, true⟩ :: nb, ?_, ?_, ?_⟩
      · simpa [List.append_assoc] using h1
      · simp only [List.map_cons, h2, hid]
      · intro b hb
        rcases List.mem_cons.mp hb with rfl | hb2
        · exact ⟨rfl, rfl⟩
        · exact h3 b hb2
    | none =>
      simp only [book_go, hr]
      exact ih db

theorem book_go_booked (uid : Nat) (ids : List Nat) (db : DB) :
    ∀ s ∈ (book_go uid ids db).1, s.availability = false ∧ s.slot_id ∈ ids ∧
      ∃ t ∈ db.slots, t.availability = true ∧ s = { t with availability := false } := by
  induction ids generalizing db with
  | nil => simp [book_go]
  | cons sid rest ih =>
    cases hr : bookFirstAvail sid db.slots with
    | some p =>
      obtain ⟨s0, slots1⟩ := p
      obtain ⟨hid, hav, _, hsub, _, hex⟩ := bookFirstAvail_some_spec sid db.slots s0 slots1 hr
      simp only [book_go, hr]
      intro s hs
      rcases List.mem_cons.mp hs with rfl | hs2
      · exact ⟨hav, by simp [hid], hex⟩
      · obtain ⟨h1, h2, t, ht, htav, rfl⟩ := ih _ s hs2
        refine ⟨h1, List.mem_cons_of_mem sid h2, t, ?_, htav, rfl⟩
        exact hsub t ht htav
    | none =>
      simp only [book_go, hr]
      intro s hs
      obtain ⟨h1, h2, h3⟩ := ih db s hs
      exact ⟨h1, List.mem_cons_of_mem sid h2, h3⟩

theorem book_go_untouched (uid : Nat) (ids : List Nat) (db : DB) :
    ∀ t ∈ db.slots, t.slot_id ∉ (book_go uid ids db).1.map Slot.slot_id →
      t ∈ (book_go uid ids db).2.slots := by
  induction ids generalizing db with
  | nil => exact fun t ht _ => ht
  | cons sid rest ih =>
    cases hr : bookFirstAvail sid db.slots with
    | some p =>
      obtain ⟨s0, slots1⟩ := p
      obtain ⟨hid, _, _, _, hkeep, _⟩ := bookFirstAvail_some_spec sid db.slots s0 slots1 hr
      simp only [book_go, hr]
      intro t ht hmem
      simp only [List.map_cons, List.mem_cons, hid] at hmem
      push_neg at hmem
      exact ih _ t (hkeep t ht hmem.1) hmem.2
    | none =>
      simp only [book_go, hr]
      exact ih db

end Turf

namespace Turf

theorem book_go_skips_unavail (uid : Nat) (ids : List Nat) (db : DB) (x : Nat)
    (hx : ∀ t ∈ db.slots, t.slot_id = x → t.availability = false) :
    x ∉ (book_go uid ids db).1.map Slot.slot_id := by
  intro hmem
  simp only [List.mem_map] at hmem
  obtain ⟨s, hs, hsx⟩ := hmem
  obtain ⟨_, _, t, ht, htav, rfl⟩ := book_go_booked uid ids db s hs
  have : t.slot_id = x := hsx
  rw [hx t ht this] at htav
  exact absurd htav (by simp)

theorem book_go_unavail_stays (uid : Nat) (ids : List Nat) (db : DB) (x : Nat)
    (hx : ∀ t ∈ db.slots, t.slot_id = x → t.availability = false) :
    ∀ t ∈ (book_go uid ids db).2.slots, t.slot_id = x → t.availability = false := by
  intro t ht hid
  by_cases hav : t.availability = true
  · exact absurd (hx t (book_go_avail_mem uid ids db t ht hav) hid) (by simp [hav])
  · simpa using hav

theorem book_go_booked_nodup (uid : Nat) (ids : List Nat) (db : DB)
    (hN : (db.slots.map Slot.slot_id).Nodup) :
    ((book_go uid ids db).1.map Slot.slot_id).Nodup := by
  induction ids generalizing db with
  | nil => simp [book_go]
  | cons sid rest ih =>
    cases hr : bookFirstAvail sid db.slots with
    | some p =>
      obtain ⟨s0, slots1⟩ := p
      obtain ⟨hid, _, hids, _, _, _⟩ := bookFirstAvail_some_spec sid db.slots s0 slots1 hr
      have hunav := bookFirstAvail_some_unavail sid db.slots s0 slots1 hN hr
      simp only [book_go, hr, List.map_cons, List.nodup_cons]
      constructor
      · rw [hid]
        exact book_go_skips_unavail uid rest _ sid hunav
      · exact ih _ (by rw [hids]; exact hN)
    | none =>
      simp only [book_go, hr]
      exact ih db hN

theorem book_go_gets_booked (uid : Nat) (ids : List Nat) (db : DB) (x : Nat)
    (hin : x ∈ ids) (hav : ∃ t ∈ db.slots, t.slot_id = x ∧ t.availability = true) :
    x ∈ (book_go uid ids db).1.map Slot.slot_id := by
  induction ids generalizing db with
  | nil => simp at hin
  | cons sid rest ih =>
    cases hr : bookFirstAvail sid db.slots with
    | some p =>
      obtain ⟨s0, slots1⟩ := p
      obtain ⟨hid, _, _, _, hkeep, _⟩ := bookFirstAvail_some_spec sid db.slots s0 slots1 hr
      simp only [book_go, hr, List.map_cons, List.mem_cons]
      by_cases hx : x = sid
      · exact Or.inl (by rw [hid, hx])
      · rcases List.mem_cons.mp hin with rfl | hin2
        · exact absurd rfl hx
        · refine Or.inr (ih _ hin2 ?_)
          obtain ⟨t, ht, htx, htav⟩ := hav
          exact ⟨t, hkeep t ht (by rw [htx]; exact hx), htx, htav⟩
    | none =>
      rcases List.mem_cons.mp hin with rfl | hin2
      · exfalso
        obtain ⟨t, ht, htx, htav⟩ := hav
        have := (bookFirstAvail_none_iff x db.slots).mp hr t ht htx
        rw [this] at htav
        exact absurd htav (by simp)
      · simp only [book_go, hr]
        exact ih db hin2 hav

theorem book_go_final_unavail (uid : Nat) (ids : List Nat) (db : DB)
    (hN : (db.slots.map Slot.slot_id).Nodup) :
    ∀ s ∈ (book_go uid ids db).1, ∀ t ∈ (book_go uid ids db).2.slots,
      t.slot_id = s.slot_id → t.availability = false := by
  induction ids generalizing db with
  | nil => simp [book_go]
  | cons sid rest ih =>
    cases hr : bookFirstAvail sid db.slots with
    | some p =>
      obtain ⟨s0, slots1⟩ := p
      obtain ⟨hid, _, hids, _, _, _⟩ := bookFirstAvail_some_spec sid db.slots s0 slots1 hr
      have hunav := bookFirstAvail_some_unavail sid db.slots s0 slots1 hN hr
      simp only [book_go, hr]
      intro s hs t ht hts
      rcases List.mem_cons.mp hs with rfl | hs2
      · exact book_go_unavail_stays uid rest _ s.slot_id
          (fun u hu hux => hunav u hu (by rw [hux, hid])) t ht hts
      · exact ih _ (by rw [hids]; exact hN) s hs2 t ht hts
    | none =>
      simp only [book_go, hr]
      exact ih db hN

end Turf

namespace Turf

theorem length_filter_slot_id (l : List Booking) (x : Nat) :
    (l.filter (fun b => b.slot_id == x)).length = (l.map Booking.slot_id).count x := by
  induction l with
  | nil => rfl
  | cons b rest ih =>
    by_cases h : b.slot_id = x
    · simp [List.filter_cons, List.count_cons, h, ih]
    · simp [List.filter_cons, List.count_cons, h, ih]

theorem book_go_countRefs (uid : Nat) (ids : List Nat) (db : DB) (x : Nat) :
    countRefs (book_go uid ids db).2 x =
      countRefs db x + ((book_go uid ids db).1.map Slot.slot_id).count x := by
  obtain ⟨nb, h1, h2, _⟩ := book_go_bookings uid ids db
  rw [countRefs, countRefs, h1, List.filter_append, List.length_append,
    length_filter_slot_id, length_filter_slot_id, h2]

/-- C1: `book_slot` re-checks each requested id at the moment it is
processed; every slot still available is flipped to unavailable with
exactly one new booking row referencing it — in particular every
requested id whose slot is available in the prior state is actually
booked and appears (exactly once) in the result; unavailable ids are
skipped silently with no change; the call returns exactly the
successfully booked slots and triggers one notification per successful
slot. -/
theorem C1_book_slot_spec (uid : Nat) (ids : List Nat) (db : DB)
    (hN : (db.slots.map Slot.slot_id).Nodup) :
    (book_slot uid ids db).2.1 =
      (book_slot uid ids db).1.map (fun s => (uid, s.slot_id)) ∧
    (book_slot uid ids db).2.1.length = (book_slot uid ids db).1.length ∧
    (∀ s ∈ (book_slot uid ids db).1, s.availability = false ∧ s.slot_id ∈ ids ∧
      (∃ t ∈ db.slots, t.availability = true ∧ s = { t with availability := false }) ∧
      (∀ t ∈ (book_slot uid ids db).2.2.slots,
        t.slot_id = s.slot_id → t.availability = false) ∧
      countRefs (book_slot uid ids db).2.2 s.slot_id = countRefs db s.slot_id + 1) ∧
    (∃ nb, (book_slot uid ids db).2.2.bookings = db.bookings ++ nb ∧
      nb.map Booking.slot_id = (book_slot uid ids db).1.map Slot.slot_id ∧
      ∀ b ∈ nb, b.user_id = uid ∧ b.confirmation_status = true) ∧
    ((book_slot uid ids db).2.2.slots.map Slot.slot_id = db.slots.map Slot.slot_id) ∧
    (∀ t ∈ db.slots, t.slot_id ∉ (book_slot uid ids db).1.map Slot.slot_id →
      t ∈ (book_slot uid ids db).2.2.slots) ∧
    (∀ x, (∀ t ∈ db.slots, t.slot_id = x → t.availability = false) →
      x ∉ (book_slot uid ids db).1.map Slot.slot_id) ∧
    (∀ x ∈ ids, (∃ t ∈ db.slots, t.slot_id = x ∧ t.availability = true) →
      x ∈ (book_slot uid ids db).1.map Slot.slot_id) ∧
    ((book_slot uid ids db).1.map Slot.slot_id).Nodup := by
  refine ⟨rfl, by simp [book_slot], ?_, ?_, ?_, ?_, ?_, ?_, ?_⟩
  · intro s hs
    have hs2 : s ∈ (book_go uid ids db).1 := hs
    obtain ⟨h1, h2, h3⟩ := book_go_booked uid ids db s hs2
    refine ⟨h1, h2, h3, ?_, ?_⟩
    · exact fun t ht => book_go_final_unavail uid ids db hN s hs2 t ht
    · have hmem : s.slot_id ∈ (book_go uid ids db).1.map Slot.slot_id :=
        List.mem_map_of_mem Slot.slot_id hs2
      have hone : ((book_go uid ids db).1.map Slot.slot_id).count s.slot_id = 1 :=
        List.count_eq_one_of_mem (book_go_booked_nodup uid ids db hN) hmem
      show countRefs (book_go uid ids db).2 s.slot_id = countRefs db s.slot_id + 1
      rw [book_go_countRefs, hone]
  · exact book_go_bookings uid ids db
  · exact book_go_slot_ids uid ids db
  · exact book_go_untouched uid ids db
  · exact fun x hx => book_go_skips_unavail uid ids db x hx
  · exact fun x hx hav => book_go_gets_booked uid ids db x hx hav
  · exact book_go_booked_nodup uid ids db hN

/-- C9: when the requested list contains the same slot id more than
once and that slot is initially available, the slot is booked exactly
once in the call: the returned list mentions it once, exactly one new
booking row references it, and one notification mentions it. -/
theorem C9_duplicate_ids_book_once (uid x : Nat) (ids : List Nat) (db : DB)
    (hN : (db.slots.map Slot.slot_id).Nodup)
    (hdup : 2 ≤ ids.count x)
    (hav : ∃ t ∈ db.slots, t.slot_id = x ∧ t.availability = true) :
    ((book_slot uid ids db).1.map Slot.slot_id).count x = 1 ∧
    countRefs (book_slot uid ids db).2.2 x = countRefs db x + 1 ∧
    ((book_slot uid ids db).2.1.map Prod.snd).count x = 1 := by
  have hx : x ∈ ids := List.count_pos_iff.mp (by omega)
  have hmem := book_go_gets_booked uid ids db x hx hav
  have hone : ((book_go uid ids db).1.map Slot.slot_id).count x = 1 :=
    List.count_eq_one_of_mem (book_go_booked_nodup uid ids db hN) hmem
  refine ⟨hone, ?_, ?_⟩
  · show countRefs (book_go uid ids db).2 x = countRefs db x + 1
    rw [book_go_countRefs, hone]
  · have : (book_slot uid ids db).2.1.map Prod.snd =
        (book_go uid ids db).1.map Slot.slot_id := by
      show ((book_go uid ids db).1.map (fun s => (uid, s.slot_id))).map Prod.snd =
        (book_go uid ids db).1.map Slot.slot_id
      rw [List.map_map]
      rfl
    rw [this, hone]

end Turf

namespace Turf

/-- Witness for C1: booking ids [1, 2, 5] on `dbBook` books exactly the
available slot 1, skips the unavailable slot 2 and the unknown id 5. -/
theorem C1_book_slot_spec_witness :
    (book_slot 7 [1, 2, 5] dbBook).2.1 =
      (book_slot 7 [1, 2, 5] dbBook).1.map (fun s => (7, s.slot_id)) ∧
    (book_slot 7 [1, 2, 5] dbBook).2.1.length = (book_slot 7 [1, 2, 5] dbBook).1.length ∧
    (∀ s ∈ (book_slot 7 [1, 2, 5] dbBook).1, s.availability = false ∧ s.slot_id ∈ [1, 2, 5] ∧
      (∃ t ∈ dbBook.slots, t.availability = true ∧ s = { t with availability := false }) ∧
      (∀ t ∈ (book_slot 7 [1, 2, 5] dbBook).2.2.slots,
        t.slot_id = s.slot_id → t.availability = false) ∧
      countRefs (book_slot 7 [1, 2, 5] dbBook).2.2 s.slot_id =
        countRefs dbBook s.slot_id + 1) ∧
    (∃ nb, (book_slot 7 [1, 2, 5] dbBook).2.2.bookings = dbBook.bookings ++ nb ∧
      nb.map Booking.slot_id = (book_slot 7 [1, 2, 5] dbBook).1.map Slot.slot_id ∧
      ∀ b ∈ nb, b.user_id = 7 ∧ b.confirmation_status = true) ∧
    ((book_slot 7 [1, 2, 5] dbBook).2.2.slots.map Slot.slot_id =
      dbBook.slots.map Slot.slot_id) ∧
    (∀ t ∈ dbBook.slots, t.slot_id ∉ (book_slot 7 [1, 2, 5] dbBook).1.map Slot.slot_id →
      t ∈ (book_slot 7 [1, 2, 5] dbBook).2.2.slots) ∧
    (∀ x, (∀ t ∈ dbBook.slots, t.slot_id = x → t.availability = false) →
      x ∉ (book_slot 7 [1, 2, 5] dbBook).1.map Slot.slot_id) ∧
    (∀ x ∈ [1, 2, 5], (∃ t ∈ dbBook.slots, t.slot_id = x ∧ t.availability = true) →
      x ∈ (book_slot 7 [1, 2, 5] dbBook).1.map Slot.slot_id) ∧
    ((book_slot 7 [1, 2, 5] dbBook).1.map Slot.slot_id).Nodup :=
  C1_book_slot_spec 7 [1, 2, 5] dbBook (by decide)

/-- Witness for C9: requesting [1, 1] on `dbBook` books the available
slot 1 exactly once. -/
theorem C9_duplicate_ids_book_once_witness :
    ((book_slot 7 [1, 1] dbBook).1.map Slot.slot_id).count 1 = 1 ∧
    countRefs (book_slot 7 [1, 1] dbBook).2.2 1 = countRefs dbBook 1 + 1 ∧
    ((book_slot 7 [1, 1] dbBook).2.1.map Prod.snd).count 1 = 1 :=
  C9_duplicate_ids_book_once 7 1 [1, 1] dbBook (by decide) (by decide)
    ⟨⟨1, 10, 11, 0, true⟩, by decide, by decide⟩

end Turf

namespace Turf

theorem not_mem_eraseP_of_find? {α : Type} (p : α → Bool) (l : List α) (b : α)
    (h : l.find? p = some b) (hN : l.Nodup) : b ∉ l.eraseP p := by
  induction l with
  | nil => simp at h
  | cons a rest ih =>
    by_cases hp : p a = true
    · have hfind : (a :: rest).find? p = some a := by simp [List.find?_cons, hp]
      rw [hfind] at h
      injection h with h
      subst h
      have he : (a :: rest).eraseP p = rest := by simp [List.eraseP_cons, hp]
      rw [he]
      exact (List.nodup_cons.mp hN).1
    · have hfind : (a :: rest).find? p = rest.find? p := by
        simp [List.find?_cons, hp]
      rw [hfind] at h
      have he : (a :: rest).eraseP p = a :: rest.eraseP p := by
        simp [List.eraseP_cons, hp]
      rw [he]
      have hmem : b ∈ rest := List.mem_of_find?_eq_some h
      have hne : b ≠ a := by
        rintro rfl
        exact (List.nodup_cons.mp hN).1 hmem
      intro hcontra
      rcases List.mem_cons.mp hcontra with h2 | h2
      · exact hne h2
      · exact ih h (List.nodup_cons.mp hN).2 h2

theorem map_setAvail_slot_ids (l : List Slot) (sid : Nat) (v : Bool) :
    (l.map (fun s => if s.slot_id = sid then { s with availability := v } else s)).map
      Slot.slot_id = l.map Slot.slot_id := by
  rw [List.map_map]
  apply List.map_congr_left
  intro s _
  by_cases h : s.slot_id = sid
  · simp [h]
  · simp [h]

theorem genSlots_bounds (d base : Nat) :
    ∀ s ∈ genSlots d base, base ≤ s.slot_id ∧ s.slot_id < base + 24 ∧
      s.availability = true := by
  intro s hs
  simp only [genSlots, List.mem_map, List.mem_range] at hs
  obtain ⟨h, hh, rfl⟩ := hs
  exact ⟨Nat.le_add_right base h, by show base + h < base + 24; omega, rfl⟩

theorem genSlots_ids_nodup (d base : Nat) :
    ((genSlots d base).map Slot.slot_id).Nodup := by
  have : (genSlots d base).map Slot.slot_id = (List.range 24).map (fun h => base + h) := by
    simp [genSlots, List.map_map]
  rw [this]
  exact List.Nodup.map (fun a b hab => by omega) (List.nodup_range 24)

theorem register_user_frame (hash : String → String)
    (n e p pw r : String) (db : DB) :
    (register_user hash n e p pw r db).2.slots = db.slots ∧
    (register_user hash n e p pw r db).2.bookings = db.bookings ∧
    (register_user hash n e p pw r db).2.nextSlotId = db.nextSlotId := by
  rw [register_user]
  split
  · exact ⟨rfl, rfl, rfl⟩
  · exact ⟨rfl, rfl, rfl⟩

end Turf

namespace Turf

theorem inv_register (hash : String → String) (n e p pw r : String) (db : DB)
    (h : Inv db) : Inv (register_user hash n e p pw r db).2 := by
  obtain ⟨f1, f2, f3⟩ := register_user_frame hash n e p pw r db
  unfold Inv at h ⊢
  rw [f1, f2, f3]
  exact h

theorem inv_generate (d : Nat) (db : DB) (h : Inv db) :
    Inv (generate_slots_for_date d db) := by
  rw [generate_slots_for_date]
  split
  · exact h
  · obtain ⟨a, b, c, dd, e⟩ := h
    refine ⟨?_, ?_, c, ?_, ?_⟩
    · intro s hs
      rcases List.mem_append.mp hs with h1 | h1
      · have := a s h1
        show s.slot_id < db.nextSlotId + 24
        omega
      · exact (genSlots_bounds d db.nextSlotId s h1).2.1
    · show ((db.slots ++ genSlots d db.nextSlotId).map Slot.slot_id).Nodup
      rw [List.map_append, List.nodup_append]
      refine ⟨b, genSlots_ids_nodup d db.nextSlotId, ?_⟩
      intro x hx hx2
      obtain ⟨s, hs, rfl⟩ := List.mem_map.mp hx
      obtain ⟨t, ht, hts⟩ := List.mem_map.mp hx2
      have h1 := a s hs
      have h2 := (genSlots_bounds d db.nextSlotId t ht).1
      omega
    · intro bk hbk s hs hsid
      rcases List.mem_append.mp hs with h1 | h1
      · exact dd bk hbk s h1 hsid
      · exfalso
        have h2 := (genSlots_bounds d db.nextSlotId s h1).1
        have h3 := e bk hbk
        omega
    · intro bk hbk
      have := e bk hbk
      show bk.slot_id < db.nextSlotId + 24
      omega

theorem inv_create (d sh : Nat) (db : DB) (h : Inv db) : Inv (create_slot d sh db) := by
  rw [create_slot]
  split
  · exact h
  · obtain ⟨a, b, c, dd, e⟩ := h
    refine ⟨?_, ?_, c, ?_, ?_⟩
    · intro s hs
      rcases List.mem_append.mp hs with h1 | h1
      · have := a s h1
        show s.slot_id < db.nextSlotId + 1
        omega
      · rcases List.mem_singleton.mp h1 with rfl
        show db.nextSlotId < db.nextSlotId + 1
        omega
    · show ((db.slots ++ [(⟨db.nextSlotId, sh, (sh + 1) % 24, d, true⟩ : Slot)]).map
        Slot.slot_id).Nodup
      rw [List.map_append, List.nodup_append]
      refine ⟨b, by simp, ?_⟩
      intro x hx hx2
      obtain ⟨s, hs, rfl⟩ := List.mem_map.mp hx
      simp only [List.map_cons, List.map_nil, List.mem_singleton] at hx2
      have h1 := a s hs
      omega
    · intro bk hbk s hs hsid
      rcases List.mem_append.mp hs with h1 | h1
      · exact dd bk hbk s h1 hsid
      · exfalso
        rcases List.mem_singleton.mp h1 with rfl
        have h3 := e bk hbk
        rw [show (⟨db.nextSlotId, sh, (sh + 1) % 24, d, true⟩ : Slot).slot_id =
          db.nextSlotId from rfl] at hsid
        omega
    · intro bk hbk
      have := e bk hbk
      show bk.slot_id < db.nextSlotId + 1
      omega

theorem inv_block (sid : Nat) (db : DB) (h : Inv db) : Inv (block_slot sid db) := by
  obtain ⟨a, b, c, dd, e⟩ := h
  refine ⟨?_, ?_, c, ?_, e⟩
  · intro s hs
    obtain ⟨t, ht, rfl⟩ := List.mem_map.mp hs
    by_cases hc : t.slot_id = sid
    · simpa [hc] using a t ht
    · simpa [hc] using a t ht
  · show ((db.slots.map fun s =>
      if s.slot_id = sid then { s with availability := false } else s).map
        Slot.slot_id).Nodup
    rw [map_setAvail_slot_ids]
    exact b
  · intro bk hbk s hs hsid
    obtain ⟨t, ht, rfl⟩ := List.mem_map.mp hs
    by_cases hc : t.slot_id = sid
    · simp [hc]
    · simp only [if_neg hc] at hsid ⊢
      exact dd bk hbk t ht hsid

theorem inv_cancel (bid : Nat) (db : DB) (h : Inv db) : Inv (cancel_booking bid db).2 := by
  obtain ⟨a, b, c, dd, e⟩ := h
  rw [cancel_booking]
  cases hf : db.bookings.find? (fun b2 => b2.booking_id == bid) with
  | none => exact ⟨a, b, c, dd, e⟩
  | some bk =>
    simp only
    have hbkmem : bk ∈ db.bookings := List.mem_of_find?_eq_some hf
    have hsub : (db.bookings.eraseP (fun b2 => b2.booking_id == bid)).Sublist
        db.bookings := List.eraseP_sublist db.bookings
    refine ⟨?_, ?_, ?_, ?_, ?_⟩
    · intro s hs
      obtain ⟨t, ht, rfl⟩ := List.mem_map.mp hs
      by_cases hc : t.slot_id = bk.slot_id
      · simpa [hc] using a t ht
      · simpa [hc] using a t ht
    · show ((db.slots.map fun s =>
        if s.slot_id = bk.slot_id then { s with availability := true } else s).map
          Slot.slot_id).Nodup
      rw [map_setAvail_slot_ids]
      exact b
    · exact (hsub.map Booking.slot_id).nodup c
    · intro b2 hb2 s hs hsid
      have hb2mem : b2 ∈ db.bookings := hsub.subset hb2
      obtain ⟨t, ht, rfl⟩ := List.mem_map.mp hs
      by_cases hc : t.slot_id = bk.slot_id
      · exfalso
        simp only [if_pos hc] at hsid
        have hbb : b2.slot_id = bk.slot_id := by
          rw [← hsid, hc]
        have hN2 : db.bookings.Nodup := c.of_map
        have hbb2 : b2 = bk :=
          List.inj_on_of_nodup_map c hb2mem hbkmem (by rw [hbb])
        exact not_mem_eraseP_of_find? _ _ bk hf hN2 (hbb2 ▸ hb2)
      · simp only [if_neg hc] at hsid ⊢
        exact dd b2 hb2mem t ht hsid
    · intro b2 hb2
      exact e b2 (hsub.subset hb2)

theorem inv_book (uid : Nat) (ids : List Nat) (db : DB) (h : Inv db) :
    Inv (book_go uid ids db).2 := by
  obtain ⟨a, b, c, dd, e⟩ := h
  have hids := book_go_slot_ids uid ids db
  have hframe := book_go_frame uid ids db
  obtain ⟨nb, hb1, hb2, hb3⟩ := book_go_bookings uid ids db
  have hbookedN := book_go_booked_nodup uid ids db b
  refine ⟨?_, ?_, ?_, ?_, ?_⟩
  · intro s hs
    have hmem : s.slot_id ∈ (book_go uid ids db).2.slots.map Slot.slot_id :=
      List.mem_map_of_mem Slot.slot_id hs
    rw [hids] at hmem
    obtain ⟨t, ht, hts⟩ := List.mem_map.mp hmem
    rw [hframe.2.2, ← hts]
    exact a t ht
  · rw [hids]
    exact b
  · rw [hb1, List.map_append, List.nodup_append]
    refine ⟨c, by rw [hb2]; exact hbookedN, ?_⟩
    intro x hx hx2
    rw [hb2] at hx2
    obtain ⟨b0, hb0, rfl⟩ := List.mem_map.mp hx
    exact book_go_skips_unavail uid ids db b0.slot_id
      (fun t ht => dd b0 hb0 t ht) hx2
  · intro b2 hb2m s hs hsid
    rw [hb1] at hb2m
    rcases List.mem_append.mp hb2m with h1 | h1
    · exact book_go_unavail_stays uid ids db b2.slot_id
        (fun t ht => dd b2 h1 t ht) s hs hsid
    · have hmem : b2.slot_id ∈ nb.map Booking.slot_id :=
        List.mem_map_of_mem Booking.slot_id h1
      rw [hb2] at hmem
      obtain ⟨s0, hs0, hs0id⟩ := List.mem_map.mp hmem
      exact book_go_final_unavail uid ids db b s0 hs0 s hs (by rw [hsid, ← hs0id])
  · intro b2 hb2m
    rw [hframe.2.2]
    rw [hb1] at hb2m
    rcases List.mem_append.mp hb2m with h1 | h1
    · exact e b2 h1
    · have hmem : b2.slot_id ∈ nb.map Booking.slot_id :=
        List.mem_map_of_mem Booking.slot_id h1
      rw [hb2] at hmem
      obtain ⟨s0, hs0, hs0id⟩ := List.mem_map.mp hmem
      obtain ⟨_, _, t, ht, _, rfl⟩ := book_go_booked uid ids db s0 hs0
      rw [← hs0id]
      exact a t ht

end Turf

namespace Turf

theorem setAvail_slot_id (s : Slot) (P : Prop) [Decidable P] (v : Bool) :
    (if P then { s with availability := v } else s).slot_id = s.slot_id := by
  split
  · rfl
  · rfl

theorem inv_init : Inv initDB := by
  refine ⟨?_, ?_, ?_, ?_, ?_⟩ <;> simp [initDB, Inv]

theorem inv_applyOp (hash : String → String) (op : Op) (db : DB) (h : Inv db) :
    Inv (applyOp hash op db) := by
  cases op with
  | register n e p pw r => exact inv_register hash n e p pw r db h
  | generate d => exact inv_generate d db h
  | book uid ids => exact inv_book uid ids db h
  | cancel bid => exact inv_cancel bid db h
  | createSlot d sh => exact inv_create d sh db h
  | block sid => exact inv_block sid db h

theorem reachable_inv (hash : String → String) (db : DB) (h : Reachable hash db) :
    Inv db := by
  induction h with
  | init => exact inv_init
  | step op hR ih => exact inv_applyOp hash _ _ ih

theorem blocked_register (hash : String → String) (n e p pw r : String)
    (db : DB) (sid : Nat) (hB : Blocked db sid) :
    Blocked (register_user hash n e p pw r db).2 sid := by
  obtain ⟨f1, f2, _⟩ := register_user_frame hash n e p pw r db
  unfold Blocked at hB ⊢
  rw [f1, f2]
  exact hB

theorem blocked_generate (d : Nat) (db : DB) (sid : Nat) (hInv : Inv db)
    (hB : Blocked db sid) : Blocked (generate_slots_for_date d db) sid := by
  obtain ⟨hex, hun, hnb⟩ := hB
  rw [generate_slots_for_date]
  split
  · exact ⟨hex, hun, hnb⟩
  · refine ⟨?_, ?_, hnb⟩
    · obtain ⟨s, hs, hsid⟩ := hex
      exact ⟨s, List.mem_append_left _ hs, hsid⟩
    · intro s hs hsid
      rcases List.mem_append.mp hs with h1 | h1
      · exact hun s h1 hsid
      · exfalso
        obtain ⟨t, ht, htid⟩ := hex
        have h2 := (genSlots_bounds d db.nextSlotId s h1).1
        have h3 := hInv.1 t ht
        rw [htid] at h3
        rw [hsid] at h2
        omega

theorem blocked_create (d sh : Nat) (db : DB) (sid : Nat) (hInv : Inv db)
    (hB : Blocked db sid) : Blocked (create_slot d sh db) sid := by
  obtain ⟨hex, hun, hnb⟩ := hB
  rw [create_slot]
  split
  · exact ⟨hex, hun, hnb⟩
  · refine ⟨?_, ?_, hnb⟩
    · obtain ⟨s, hs, hsid⟩ := hex
      exact ⟨s, List.mem_append_left _ hs, hsid⟩
    · intro s hs hsid
      rcases List.mem_append.mp hs with h1 | h1
      · exact hun s h1 hsid
      · exfalso
        rcases List.mem_singleton.mp h1 with rfl
        obtain ⟨t, ht, htid⟩ := hex
        have h3 := hInv.1 t ht
        rw [htid] at h3
        rw [show (⟨db.nextSlotId, sh, (sh + 1) % 24, d, true⟩ : Slot).slot_id =
          db.nextSlotId from rfl] at hsid
        omega

theorem blocked_block (x : Nat) (db : DB) (sid : Nat) (hB : Blocked db sid) :
    Blocked (block_slot x db) sid := by
  obtain ⟨hex, hun, hnb⟩ := hB
  refine ⟨?_, ?_, hnb⟩
  · obtain ⟨s, hs, hsid⟩ := hex
    refine ⟨_, List.mem_map_of_mem _ hs, ?_⟩
    rw [setAvail_slot_id]
    exact hsid
  · intro s hs hsid
    obtain ⟨t, ht, rfl⟩ := List.mem_map.mp hs
    by_cases hc : t.slot_id = x
    · simp [hc]
    · rw [if_neg hc] at hsid ⊢
      exact hun t ht hsid

theorem blocked_cancel (bid : Nat) (db : DB) (sid : Nat) (hB : Blocked db sid) :
    Blocked (cancel_booking bid db).2 sid := by
  obtain ⟨hex, hun, hnb⟩ := hB
  rw [cancel_booking]
  cases hf : db.bookings.find? (fun b2 => b2.booking_id == bid) with
  | none => exact ⟨hex, hun, hnb⟩
  | some bk =>
    simp only
    have hbkmem : bk ∈ db.bookings := List.mem_of_find?_eq_some hf
    have hne : bk.slot_id ≠ sid := hnb bk hbkmem
    refine ⟨?_, ?_, ?_⟩
    · obtain ⟨s, hs, hsid⟩ := hex
      refine ⟨_, List.mem_map_of_mem _ hs, ?_⟩
      rw [setAvail_slot_id]
      exact hsid
    · intro s hs hsid
      obtain ⟨t, ht, rfl⟩ := List.mem_map.mp hs
      by_cases hc : t.slot_id = bk.slot_id
      · exfalso
        rw [if_pos hc] at hsid
        exact hne (by rw [← hc]; exact hsid)
      · rw [if_neg hc] at hsid ⊢
        exact hun t ht hsid
    · intro b2 hb2
      exact hnb b2 ((List.eraseP_sublist db.bookings).subset hb2)

theorem blocked_book (uid : Nat) (ids : List Nat) (db : DB) (sid : Nat)
    (hB : Blocked db sid) : Blocked (book_go uid ids db).2 sid := by
  obtain ⟨hex, hun, hnb⟩ := hB
  have hids := book_go_slot_ids uid ids db
  obtain ⟨nb, hb1, hb2, hb3⟩ := book_go_bookings uid ids db
  refine ⟨?_, ?_, ?_⟩
  · obtain ⟨s, hs, hsid⟩ := hex
    have hmem : sid ∈ (book_go uid ids db).2.slots.map Slot.slot_id := by
      rw [hids]
      exact hsid ▸ List.mem_map_of_mem Slot.slot_id hs
    obtain ⟨t, ht, hts⟩ := List.mem_map.mp hmem
    exact ⟨t, ht, hts⟩
  · exact book_go_unavail_stays uid ids db sid hun
  · intro b2 hb2m
    rw [hb1] at hb2m
    rcases List.mem_append.mp hb2m with h1 | h1
    · exact hnb b2 h1
    · have hmem : b2.slot_id ∈ nb.map Booking.slot_id :=
        List.mem_map_of_mem Booking.slot_id h1
      rw [hb2] at hmem
      intro hcontra
      rw [hcontra] at hmem
      exact book_go_skips_unavail uid ids db sid hun hmem

theorem blocked_applyOp (hash : String → String) (op : Op) (db : DB) (sid : Nat)
    (hInv : Inv db) (hB : Blocked db sid) : Blocked (applyOp hash op db) sid := by
  cases op with
  | register n e p pw r => exact blocked_register hash n e p pw r db sid hB
  | generate d => exact blocked_generate d db sid hInv hB
  | book uid ids => exact blocked_book uid ids db sid hB
  | cancel bid => exact blocked_cancel bid db sid hB
  | createSlot d sh => exact blocked_create d sh db sid hInv hB
  | block x => exact blocked_block x db sid hB

/-- C8: a slot never leaves the Blocked state: in every reachable
state, once a slot is unavailable with no booking referencing it
(Blocked), no subsequent sequence of operations (register, generate,
book, cancel, create-slot, block) ever sets its availability back to
true or attaches a booking to it. -/
theorem C8_blocked_persists (hash : String → String) (db : DB) (sid : Nat) (ops : List Op)
    (hR : Reachable hash db) (hB : Blocked db sid) :
    Blocked (applyOps hash ops db) sid := by
  induction ops generalizing db with
  | nil => exact hB
  | cons op rest ih =>
    show Blocked (applyOps hash rest (applyOp hash op db)) sid
    exact ih (applyOp hash op db) (Reachable.step op hR)
      (blocked_applyOp hash op db sid (reachable_inv hash db hR) hB)

/-- C5 (amended): in every reachable state, at most one booking row
references any given slot id, and every slot referenced by a booking
has availability false.  The spec's literal biconditional fails in the
other direction (see the counterexample): an available slot also has
zero bookings referencing it. -/
theorem C5_amended_at_most_one_booking (hash : String → String) (db : DB) (hR : Reachable hash db) :
    (∀ sid, countRefs db sid ≤ 1) ∧
    (∀ b ∈ db.bookings, ∀ s ∈ db.slots, s.slot_id = b.slot_id →
      s.availability = false) := by
  have hInv := reachable_inv hash db hR
  constructor
  · intro sid
    rw [countRefs, length_filter_slot_id]
    exact List.nodup_iff_count_le_one.mp hInv.2.2.1 sid
  · exact hInv.2.2.2.1

/-- C5 as written is false on the code: after generating a fresh day
from the fresh database — a reachable state — every slot is available
with zero bookings referencing it, so "availability is false iff
exactly zero or one active booking references it" fails. -/
theorem C5_counterexample :
    Reachable id (applyOp id (Op.generate 0) initDB) ∧
    ¬ availIffAtMostOneRef (applyOp id (Op.generate 0) initDB) :=
  ⟨Reachable.step (Op.generate 0) Reachable.init, by
    unfold availIffAtMostOneRef
    decide⟩

end Turf

namespace Turf

/-- Witness for C8: slot 1 is created and blocked; booking attempts,
cancellations, regeneration and further blocks never free it. -/
theorem C8_blocked_persists_witness :
    Blocked (applyOps id [Op.book 3 [1], Op.cancel 1, Op.generate 0, Op.block 2]
      (applyOp id (Op.block 1) (applyOp id (Op.createSlot 0 5) initDB))) 1 :=
  C8_blocked_persists id _ 1 _
    (Reachable.step (Op.block 1) (Reachable.step (Op.createSlot 0 5) Reachable.init))
    (by unfold Blocked; decide)

/-- Witness for C5 (amended), at the reachable state where slot 1 of a
generated day has been booked once. -/
theorem C5_amended_at_most_one_booking_witness :
    countRefs (applyOp id (Op.book 1 [1]) (applyOp id (Op.generate 0) initDB)) 1 ≤ 1 ∧
    countRefs (applyOp id (Op.book 1 [1]) (applyOp id (Op.generate 0) initDB)) 2 ≤ 1 :=
  ⟨(C5_amended_at_most_one_booking id _
      (Reachable.step (Op.book 1 [1]) (Reachable.step (Op.generate 0) Reachable.init))).1 1,
   (C5_amended_at_most_one_booking id _
      (Reachable.step (Op.book 1 [1]) (Reachable.step (Op.generate 0) Reachable.init))).1 2⟩

end Turf
